import Mathlib

/-!
Verification of the hTF sequence-similarity pipeline.

This file shallowly embeds the two scripts of the repository:

* `TF-sequence-similarity-calculation.py`: the per-pair similarity
  computation `calculate_similarity_for_pair` and the batch orchestration
  of `main` (a `multiprocessing.Pool.imap` over the input records).
* `TF-sequence-query.py`: the name-to-sequence cache construction and the
  per-row sequence mapping of `main`.

Modelling conventions:

* Python float percent identities are modelled exactly as rationals (all
  values of interest — `0.0`, `100.0`, and the `[0,100]` range — are exact);
  `math.nan` is modelled as `none` in an `Option Rat`.
* The alignment engine used by the script is the external `parasail`
  library (`parasail.nw_stats` with `parasail.blosum62`), which is not part
  of this repository; it is modelled from the specification's description
  of the Alignment Kernel (global Needleman-Wunsch alignment with affine
  gap penalties, statistics accumulated along the optimal path, with a
  documented tie-break preferring a diagonal move over a gap in the second
  sequence over a gap in the first).
* Exceptions raised by the alignment call are modelled by letting the
  per-pair function take the kernel as an `Except`-valued argument.
-/

namespace HTF

/-- Gap state of the affine dynamic program: no open gap, inside a run of
gap columns consuming from the first sequence (`inDel`), or inside a run of
gap columns consuming from the second sequence (`inIns`). -/
inductive GapSt where
  | noGap : GapSt
  | inDel : GapSt
  | inIns : GapSt
deriving DecidableEq, Repr

/-- Modelled from the spec: a scoring scheme is a substitution matrix
mapping a pair of symbols to an integer score plus positive affine gap
penalties (first gap column costs `gapOpen`, each further contiguous gap
column in the same direction costs `gapExtend`). -/
structure Scheme where
  score : Char → Char → Int
  gapOpen : Int
  gapExtend : Int

/-- Charge for a gap column consuming from the first sequence. -/
def delCharge (sch : Scheme) (p : GapSt) : Int :=
  if p = GapSt.inDel then sch.gapExtend else sch.gapOpen

/-- Charge for a gap column consuming from the second sequence. -/
def insCharge (sch : Scheme) (p : GapSt) : Int :=
  if p = GapSt.inIns then sch.gapExtend else sch.gapOpen

/-- Extend a `(score, length, matches)` triple with a substitution column. -/
def addSub (sch : Scheme) (a b : Char) (t : Int × Nat × Nat) : Int × Nat × Nat :=
  (sch.score a b + t.1, t.2.1 + 1, t.2.2 + (if a == b then 1 else 0))

/-- Extend a `(score, length, matches)` triple with a gap column consuming
a symbol of the first sequence. -/
def addDel (sch : Scheme) (p : GapSt) (t : Int × Nat × Nat) : Int × Nat × Nat :=
  (t.1 - delCharge sch p, t.2.1 + 1, t.2.2)

/-- Extend a `(score, length, matches)` triple with a gap column consuming
a symbol of the second sequence. -/
def addIns (sch : Scheme) (p : GapSt) (t : Int × Nat × Nat) : Int × Nat × Nat :=
  (t.1 - insCharge sch p, t.2.1 + 1, t.2.2)

/-- Pick the better-scoring of two candidate triples, keeping the first on
a tie; nesting it as `pickBest (pickBest sub del) ins` realises the
documented tie-break `sub > del > ins`. -/
def pickBest (x y : Int × Nat × Nat) : Int × Nat × Nat :=
  if x.1 < y.1 then y else x

/-- Modelled from the spec: fuelled global-alignment dynamic program.
`nwGoF sch fuel p as bs` returns the best `(score, length, matches)` over
all global alignments of `as` with `bs`, where `p` records whether the
previous column was a gap (for affine charging).  The fuel is only there
to make the recursion structural; `as.length + bs.length` is always
sufficient. -/
def nwGoF (sch : Scheme) : Nat → GapSt → List Char → List Char → Int × Nat × Nat
  | 0, _, _, _ => (0, 0, 0)
  | _ + 1, _, [], [] => (0, 0, 0)
  | fuel + 1, p, _ :: as, [] => addDel sch p (nwGoF sch fuel GapSt.inDel as [])
  | fuel + 1, p, [], _ :: bs => addIns sch p (nwGoF sch fuel GapSt.inIns [] bs)
  | fuel + 1, p, a :: as, b :: bs =>
      pickBest
        (pickBest (addSub sch a b (nwGoF sch fuel GapSt.noGap as bs))
          (addDel sch p (nwGoF sch fuel GapSt.inDel as (b :: bs))))
        (addIns sch p (nwGoF sch fuel GapSt.inIns (a :: as) bs))

/-- The alignment dynamic program with sufficient fuel. -/
def nwGo (sch : Scheme) (p : GapSt) (as bs : List Char) : Int × Nat × Nat :=
  nwGoF sch (as.length + bs.length) p as bs

/-- Result statistics of one alignment, mirroring the fields of a
`parasail.nw_stats` result used by the script (`numMatches` stands for the
`.matches` field, whose name is reserved syntax in Lean). -/
structure Stats where
  score : Int
  length : Nat
  numMatches : Nat
deriving DecidableEq, Repr

/-- Modelled from the spec: the Alignment Kernel (`parasail.nw_stats` in
the script, an external library) as a pure function on the two sequences. -/
def nw_stats (sch : Scheme) (s1 s2 : String) : Stats :=
  let t := nwGo sch GapSt.noGap s1.toList s2.toList
  ⟨t.1, t.2.1, t.2.2⟩

/-- Percent identity of an alignment result, the formula of line 53 of
`TF-sequence-similarity-calculation.py`:
`(alignment_result.matches / alignment_result.length) * 100`. -/
def percentIdentityOfStats (st : Stats) : Rat :=
  (st.numMatches : Rat) / (st.length : Rat) * 100

/-- Index of the 20 standard amino-acid one-letter codes in the row order
of the BLOSUM62 matrix (A R N D C Q E G H I L K M F P S T W Y V). -/
def aaIndex (c : Char) : Option Nat :=
  match c with
  | 'A' => some 0 | 'R' => some 1 | 'N' => some 2 | 'D' => some 3 | 'C' => some 4
  | 'Q' => some 5 | 'E' => some 6 | 'G' => some 7 | 'H' => some 8 | 'I' => some 9
  | 'L' => some 10 | 'K' => some 11 | 'M' => some 12 | 'F' => some 13 | 'P' => some 14
  | 'S' => some 15 | 'T' => some 16 | 'W' => some 17 | 'Y' => some 18 | 'V' => some 19
  | _ => none

/-- The BLOSUM62 substitution table for the 20 standard residues, in the
order A R N D C Q E G H I L K M F P S T W Y V (the matrix the script uses
through `parasail.blosum62`). -/
def blosum62Table : List (List Int) :=
  [[4, -1, -2, -2, 0, -1, -1, 0, -2, -1, -1, -1, -1, -2, -1, 1, 0, -3, -2, 0],
   [-1, 5, 0, -2, -3, 1, 0, -2, 0, -3, -2, 2, -1, -3, -2, -1, -1, -3, -2, -3],
   [-2, 0, 6, 1, -3, 0, 0, 0, 1, -3, -3, 0, -2, -3, -2, 1, 0, -4, -2, -3],
   [-2, -2, 1, 6, -3, 0, 2, -1, -1, -3, -4, -1, -3, -3, -1, 0, -1, -4, -3, -3],
   [0, -3, -3, -3, 9, -3, -4, -3, -3, -1, -1, -3, -1, -2, -3, -1, -1, -2, -2, -1],
   [-1, 1, 0, 0, -3, 5, 2, -2, 0, -3, -2, 1, 0, -3, -1, 0, -1, -2, -1, -2],
   [-1, 0, 0, 2, -4, 2, 5, -2, 0, -3, -3, 1, -2, -3, -1, 0, -1, -3, -2, -2],
   [0, -2, 0, -1, -3, -2, -2, 6, -2, -4, -4, -2, -3, -3, -2, 0, -2, -2, -3, -3],
   [-2, 0, 1, -1, -3, 0, 0, -2, 8, -3, -3, -1, -2, -1, -2, -1, -2, -2, 2, -3],
   [-1, -3, -3, -3, -1, -3, -3, -4, -3, 4, 2, -3, 1, 0, -3, -2, -1, -3, -1, 3],
   [-1, -2, -3, -4, -1, -2, -3, -4, -3, 2, 4, -2, 2, 0, -3, -2, -1, -2, -1, 1],
   [-1, 2, 0, -1, -3, 1, 1, -2, -1, -3, -2, 5, -1, -3, -1, 0, -1, -3, -2, -2],
   [-1, -1, -2, -3, -1, 0, -2, -3, -2, 1, 2, -1, 5, 0, -2, -1, -1, -1, -1, 1],
   [-2, -3, -3, -3, -2, -3, -3, -3, -1, 0, 0, -3, 0, 6, -4, -2, -2, 1, 3, -1],
   [-1, -2, -2, -1, -3, -1, -1, -2, -2, -3, -3, -1, -2, -4, 7, -1, -1, -4, -3, -2],
   [1, -1, 1, 0, -1, 0, 0, 0, -1, -2, -2, 0, -1, -2, -1, 4, 1, -3, -2, -2],
   [0, -1, 0, -1, -1, -1, -1, -2, -2, -1, -1, -1, -1, -2, -1, 1, 5, -2, -2, 0],
   [-3, -3, -4, -4, -2, -2, -3, -2, -2, -3, -2, -3, -1, 1, -4, -3, -2, 11, 2, -3],
   [-2, -2, -2, -3, -2, -1, -2, -3, 2, -1, -1, -2, -1, 3, -3, -2, -2, 2, 7, -1],
   [0, -3, -3, -3, -1, -2, -2, -3, -3, 3, 1, -2, 1, -1, -2, -2, 0, -3, -1, 4]]

/-- BLOSUM62 score of a pair of symbols.  Modelled from the spec for
symbols outside the 20 standard residues: unknown or ambiguous symbols are
scored via a matrix default (`-1`) rather than rejected. -/
def blosum62 (x y : Char) : Int :=
  match aaIndex x, aaIndex y with
  | some i, some j => (blosum62Table.getD i []).getD j (-1)
  | _, _ => -1

/-- The scoring scheme fixed at the top of
`TF-sequence-similarity-calculation.py`: BLOSUM62 with `GAP_OPEN_PENALTY
= 10` and `GAP_EXTEND_PENALTY = 1`. -/
def blosumScheme : Scheme :=
  { score := blosum62, gapOpen := 10, gapExtend := 1 }

/-- One column of a global alignment: a substitution column consuming a
symbol from each sequence, a gap column consuming only from the first
sequence, or a gap column consuming only from the second sequence. -/
inductive Col where
  | sub : Char → Char → Col
  | del : Char → Col
  | ins : Char → Col
deriving DecidableEq, Repr

/-- Symbols an alignment consumes from the first sequence, in order. -/
def consumedA : List Col → List Char
  | [] => []
  | Col.sub a _ :: w => a :: consumedA w
  | Col.del a :: w => a :: consumedA w
  | Col.ins _ :: w => consumedA w

/-- Symbols an alignment consumes from the second sequence, in order. -/
def consumedB : List Col → List Char
  | [] => []
  | Col.sub _ b :: w => b :: consumedB w
  | Col.del _ :: w => consumedB w
  | Col.ins b :: w => b :: consumedB w

/-- Gap state after a column. -/
def stateOf : Col → GapSt
  | Col.sub _ _ => GapSt.noGap
  | Col.del _ => GapSt.inDel
  | Col.ins _ => GapSt.inIns

/-- Charge of one column given the gap state before it. -/
def colCharge (sch : Scheme) (p : GapSt) : Col → Int
  | Col.sub a b => sch.score a b
  | Col.del _ => -delCharge sch p
  | Col.ins _ => -insCharge sch p

/-- Affine score of an alignment read as a column list, starting in gap
state `p`. -/
def alignScoreFrom (sch : Scheme) (p : GapSt) : List Col → Int
  | [] => 0
  | c :: w => colCharge sch p c + alignScoreFrom sch (stateOf c) w

/-- Whether a column is an exact-match substitution column. -/
def isMatchCol : Col → Bool
  | Col.sub a b => a == b
  | _ => false

/-- Number of exact-match columns of an alignment. -/
def matchCount (w : List Col) : Nat :=
  w.countP isMatchCol

/-- Whether a column is a gap column. -/
def isGapCol : Col → Bool
  | Col.sub _ _ => false
  | _ => true

/-- Whether an alignment contains a gap column. -/
def hasGapCol (w : List Col) : Bool :=
  w.any isGapCol

/-- Sum of the substitution scores of the substitution columns. -/
def subTotal (sch : Scheme) : List Col → Int
  | [] => 0
  | Col.sub a b :: w => sch.score a b + subTotal sch w
  | Col.del _ :: w => subTotal sch w
  | Col.ins _ :: w => subTotal sch w

/-- Sum, over the substitution columns, of the diagonal score of the
symbol consumed from the second sequence. -/
def diagTotalB (sch : Scheme) : List Col → Int
  | [] => 0
  | Col.sub _ b :: w => sch.score b b + diagTotalB sch w
  | Col.del _ :: w => diagTotalB sch w
  | Col.ins _ :: w => diagTotalB sch w

/-- Total diagonal score of a sequence, the score of its identity
alignment. -/
def selfScore (sch : Scheme) : List Char → Int
  | [] => 0
  | c :: l => sch.score c c + selfScore sch l

/-- The identity alignment of a sequence with itself. -/
def idAlign (l : List Char) : List Col :=
  l.map fun c => Col.sub c c

/-!
Embedding of `calculate_similarity_for_pair`
(`TF-sequence-similarity-calculation.py`, lines 18-63).
-/

/-- A cell of the `Sequence_hTF1` / `Sequence_hTF2` columns of the input
data frame: a string, or some non-string value (e.g. a pandas float NaN),
which the script rejects with its `isinstance` check. -/
inductive SeqVal where
  | str : String → SeqVal
  | nonString : SeqVal
deriving DecidableEq, Repr

/-- One input record (one row of the input data frame): the columns
`hTF1`, `hTF2`, `Sequence_hTF1`, `Sequence_hTF2` and the pass-through
`similarity` value. -/
structure Row where
  hTF1 : String
  hTF2 : String
  seq1 : SeqVal
  seq2 : SeqVal
  similarity : Rat
deriving DecidableEq, Repr

/-- The check of line 39: `seq == "NOT_FOUND"` (false on non-strings, as
Python equality between a non-string and a string is). -/
def isNotFound : SeqVal → Bool
  | SeqVal.str s => s == "NOT_FOUND"
  | SeqVal.nonString => false

/-- The check of line 43: not a string instance, or falsy (empty). -/
def isInvalidSeq : SeqVal → Bool
  | SeqVal.str s => s == ""
  | SeqVal.nonString => true

/-- String content of a validated sequence cell. -/
def strOf : SeqVal → String
  | SeqVal.str s => s
  | SeqVal.nonString => ""

/-- The value the function returns: the early returns of lines 40 and 44
produce a 3-tuple `(hTF1, hTF2, nan)`, while the final return of line 63
produces a 6-tuple `(hTF1, hTF2, seq1, seq2, percent_identity,
similarity)`.  `math.nan` is modelled as `none`. -/
inductive PairResult where
  | triple : String → String → Option Rat → PairResult
  | sextuple : String → String → String → String → Option Rat → Rat → PairResult
deriving DecidableEq, Repr

/-- The percent-identity slot of a returned tuple. -/
def pidOf : PairResult → Option Rat
  | PairResult.triple _ _ p => p
  | PairResult.sextuple _ _ _ _ p _ => p

/-- The two identifier slots of a returned tuple. -/
def idsOf : PairResult → String × String
  | PairResult.triple a b _ => (a, b)
  | PairResult.sextuple a b _ _ _ _ => (a, b)

/-- The alignment call as the per-pair function sees it: either a result
object (`some` statistics, or `none` for a falsy result) or a raised
exception (`Except.error`). -/
def Kernel : Type :=
  String → String → Except Unit (Option Stats)

/-- The kernel actually used by the script: `parasail.nw_stats` with the
fixed scheme, which returns a statistics object and raises nothing. -/
def parasailKernel (sch : Scheme) : Kernel :=
  fun s1 s2 => Except.ok (some (nw_stats sch s1 s2))

/-- Embedding of `calculate_similarity_for_pair` (lines 32-63), with the
alignment call abstracted as `kernel`: the `NOT_FOUND` check of line 39
and the validity check of line 43 each return early with a 3-tuple; the
`try` block of lines 46-61 turns a positive-length result into
`(matches / length) * 100`, a falsy or zero-length result into `0.0`, and
a raised exception into `nan`; line 63 returns the 6-tuple. -/
def calculate_similarity_for_pair (kernel : Kernel) (row : Row) : PairResult :=
  if isNotFound row.seq1 || isNotFound row.seq2 then
    PairResult.triple row.hTF1 row.hTF2 none
  else if isInvalidSeq row.seq1 || isInvalidSeq row.seq2 then
    PairResult.triple row.hTF1 row.hTF2 none
  else
    let s1 := strOf row.seq1
    let s2 := strOf row.seq2
    let percent_identity : Option Rat :=
      match kernel s1 s2 with
      | Except.error _ => none
      | Except.ok none => some 0
      | Except.ok (some st) =>
          if 0 < st.length then some (percentIdentityOfStats st) else some 0
    PairResult.sextuple row.hTF1 row.hTF2 s1 s2 percent_identity row.similarity

/-!
Embedding of the batch orchestration of `main`
(`TF-sequence-similarity-calculation.py`, lines 121-139): the records are
passed to `pool.imap(calculate_similarity_for_pair, data_for_pool)`,
whose results are collected in input order into a list.  The pool
dispatches the records to workers and the workers complete them in some
order; `imap` re-assembles the results by input index.  `runBatchSched`
models an execution in which the work items complete in the order given
by `order` (a permutation of the indices) and the results are collected
by original index; `runBatch` is the sequential reference. -/

/-- Sequential reference semantics of the batch: one result per record,
in input order. -/
def runBatch (kernel : Kernel) (rows : List Row) : List PairResult :=
  rows.map (calculate_similarity_for_pair kernel)

/-- Results tagged with their original index, listed in the order the
parallel workers complete them. -/
def dispatchResults (kernel : Kernel) (rows : List Row) (order : List Nat) :
    List (Nat × PairResult) :=
  order.filterMap fun i =>
    (rows[i]?).map fun r => (i, calculate_similarity_for_pair kernel r)

/-- Re-assembly of the tagged results by original index, as `imap`
delivers them. -/
def collectInOrder (n : Nat) (tagged : List (Nat × PairResult)) : List PairResult :=
  (List.range n).filterMap fun i =>
    (tagged.find? fun p => p.1 == i).map Prod.snd

/-- The batch under a given completion order of the work items. -/
def runBatchSched (kernel : Kernel) (rows : List Row) (order : List Nat) :
    List PairResult :=
  collectInOrder rows.length (dispatchResults kernel rows order)

/-!
Embedding of `TF-sequence-query.py` (`main`, lines 95-126): collect the
unique hTF names of both columns, fetch each name's sequence once (the
`sequence_map` dictionary acts as a cache), then map the fetched
sequences onto every row, filling fetch misses with `"NOT_FOUND"`.

The UniProt fetch is modelled as a stateful oracle `fetch : σ → String →
Option String × σ` (successive calls may answer differently), returning
`none` when no sequence was found — `fetch_sequence_from_protein_name`
returns `None` in that case.
-/

/-- One row of the query script's input (`hTF1`, `hTF2`, `similarity`). -/
structure NamePairRow where
  hTF1 : String
  hTF2 : String
  similarity : Rat
deriving DecidableEq, Repr

/-- One row of the query script's output data frame. -/
structure SeqOutRow where
  hTF1 : String
  seq1 : String
  hTF2 : String
  seq2 : String
  similarity : Rat
deriving DecidableEq, Repr

/-- The cache-building loop of lines 102-108: iterate over the unique
names (in the arbitrary iteration order of the Python set), fetching a
name only when it is not yet in the dictionary. -/
def buildSeqMapAux {σ : Type} (fetch : σ → String → Option String × σ) :
    List String → List (String × Option String) → σ →
      List (String × Option String) × σ
  | [], m, st => (m, st)
  | n :: ns, m, st =>
    match m.lookup n with
    | some _ => buildSeqMapAux fetch ns m st
    | none =>
        let res := fetch st n
        buildSeqMapAux fetch ns (m ++ [(n, res.1)]) res.2

/-- The `sequence_map` dictionary after the fetch loop. -/
def buildSeqMap {σ : Type} (fetch : σ → String → Option String × σ)
    (names : List String) (st : σ) : List (String × Option String) × σ :=
  buildSeqMapAux fetch names [] st

/-- The column mapping of lines 118-119:
`df[name_col].map(sequence_map).fillna("NOT_FOUND")` — a name missing
from the dictionary or mapped to `None` becomes the sentinel string
`"NOT_FOUND"`. -/
def seqOfMap (m : List (String × Option String)) (name : String) : String :=
  match m.lookup name with
  | some (some s) => s
  | some none => "NOT_FOUND"
  | none => "NOT_FOUND"

/-- The whole sequence-query stage on one batch of rows: build the
name-to-sequence table once over `nameOrder` (the iteration order of the
set of unique names), then produce one output row per input row. -/
def sequenceQueryMain {σ : Type} (fetch : σ → String → Option String × σ)
    (st : σ) (rows : List NamePairRow) (nameOrder : List String) :
    List SeqOutRow :=
  let m := (buildSeqMap fetch nameOrder st).1
  rows.map fun r =>
    ⟨r.hTF1, seqOfMap m r.hTF1, r.hTF2, seqOfMap m r.hTF2, r.similarity⟩

/-- Swap the roles of the two sequences in a gap state. -/
def swapSt : GapSt → GapSt
  | GapSt.noGap => GapSt.noGap
  | GapSt.inDel => GapSt.inIns
  | GapSt.inIns => GapSt.inDel

/-- A default row used only to express optional indexing totally. -/
def defaultRow : Row :=
  ⟨"", "", SeqVal.str "", SeqVal.str "", 0⟩

/-- A symmetric substitution function over a two-letter alphabet, with
positive gap penalties, under which the tie-broken optimal alignments of
`"Q"` versus `"RQ"` and of `"RQ"` versus `"Q"` carry different match
statistics (`cexScore x y = cexScore y x` holds for all symbols by the
symmetry of the defining conditions). -/
def cexScore (x y : Char) : Int :=
  if x = 'Q' ∧ y = 'Q' then -2
  else if (x = 'Q' ∧ y = 'R') ∨ (x = 'R' ∧ y = 'Q') then -3
  else if x = 'R' ∧ y = 'R' then -1
  else 0

/-- The scheme of the percent-identity asymmetry counterexample. -/
def cexScheme : Scheme :=
  { score := cexScore, gapOpen := 1, gapExtend := 1 }

/-- A manifestly symmetric scoring scheme used to instantiate the score
symmetry theorem. -/
def diagScheme : Scheme :=
  { score := fun x y => if x = y then 1 else 0, gapOpen := 1, gapExtend := 1 }

/-- A kernel that reports a zero-length alignment result (the case the
script guards with `alignment_result.length > 0`). -/
def zeroLenKernel : Kernel :=
  fun _ _ => Except.ok (some ⟨0, 0, 0⟩)

/-- A kernel whose every call raises, standing for an unexpected failure
inside the alignment computation. -/
def errKernel : Kernel :=
  fun _ _ => Except.error ()

/-- A concrete valid self-pair record (sequences `"MKV"`). -/
def rowMKV : Row :=
  ⟨"P1", "P2", SeqVal.str "MKV", SeqVal.str "MKV", 1⟩

/-- A concrete record whose first sequence is empty. -/
def rowEmptySeq : Row :=
  ⟨"A", "B", SeqVal.str "", SeqVal.str "MKV", 2⟩

/-- A concrete two-record batch of valid pairs. -/
def rowsTwo : List Row :=
  [⟨"A1", "A2", SeqVal.str "MK", SeqVal.str "MK", 1⟩,
   ⟨"B1", "B2", SeqVal.str "KV", SeqVal.str "MV", 2⟩]

/-- A concrete three-record batch of valid pairs. -/
def rowsThree : List Row :=
  [⟨"A1", "A2", SeqVal.str "MK", SeqVal.str "MK", 1⟩,
   ⟨"B1", "B2", SeqVal.str "KV", SeqVal.str "MV", 2⟩,
   ⟨"C1", "C2", SeqVal.str "V", SeqVal.str "V", 3⟩]

/-- A concrete stateful fetch oracle: no sequence for the name `"GONE"`,
otherwise a sequence derived from the name; the state counts calls. -/
def fetchW (st : Nat) (n : String) : Option String × Nat :=
  (if n = "GONE" then none else some ("SEQ" ++ n), st + 1)

/-- A concrete input batch for the sequence-query stage. -/
def rowsW : List NamePairRow :=
  [⟨"TP53", "GONE", 1⟩]

/-- A concrete iteration order of the unique names of `rowsW`. -/
def namesW : List String :=
  ["TP53", "GONE"]

/-!
Lemmas about the alignment dynamic program.
-/

theorem pickBest_eq_or (x y : Int × Nat × Nat) : pickBest x y = x ∨ pickBest x y = y := by
  unfold pickBest
  split
  · exact Or.inr rfl
  · exact Or.inl rfl

theorem le_pickBest_left (x y : Int × Nat × Nat) : x.1 ≤ (pickBest x y).1 := by
  unfold pickBest
  split <;> omega

theorem le_pickBest_right (x y : Int × Nat × Nat) : y.1 ≤ (pickBest x y).1 := by
  unfold pickBest
  split <;> omega

/-- The dynamic program's answer is realised by an actual global alignment
of the two sequences: its score, length and match count are those of some
column list consuming exactly the two inputs. -/
theorem nwGoF_realized (sch : Scheme) :
    ∀ (fuel : Nat) (p : GapSt) (as bs : List Char),
      as.length + bs.length ≤ fuel →
      ∃ w : List Col, consumedA w = as ∧ consumedB w = bs ∧
        nwGoF sch fuel p as bs =
          (alignScoreFrom sch p w, w.length, matchCount w) := by
  intro fuel
  induction fuel with
  | zero =>
    intro p as bs h
    have has : as = [] := by
      cases as with
      | nil => rfl
      | cons a t => simp at h
    have hbs : bs = [] := by
      cases bs with
      | nil => rfl
      | cons b t => simp at h
    subst has; subst hbs
    exact ⟨[], rfl, rfl, by simp [nwGoF, alignScoreFrom, matchCount]⟩
  | succ f ih =>
    intro p as bs h
    cases as with
    | nil =>
      cases bs with
      | nil =>
        exact ⟨[], rfl, rfl, by simp [nwGoF, alignScoreFrom, matchCount]⟩
      | cons b bs =>
        obtain ⟨w, hA, hB, hEq⟩ := ih GapSt.inIns [] bs (by simp at h ⊢; omega)
        refine ⟨Col.ins b :: w, by simp [consumedA, hA], by simp [consumedB, hB], ?_⟩
        simp only [nwGoF, hEq, addIns, alignScoreFrom, colCharge, stateOf,
          matchCount, List.countP_cons, isMatchCol, List.length_cons]
        refine Prod.ext ?_ (Prod.ext ?_ ?_) <;> simp [matchCount] <;> omega
    | cons a as =>
      cases bs with
      | nil =>
        obtain ⟨w, hA, hB, hEq⟩ := ih GapSt.inDel as [] (by simp at h ⊢; omega)
        refine ⟨Col.del a :: w, by simp [consumedA, hA], by simp [consumedB, hB], ?_⟩
        simp only [nwGoF, hEq, addDel, alignScoreFrom, colCharge, stateOf,
          List.length_cons]
        refine Prod.ext ?_ (Prod.ext ?_ ?_) <;> simp [matchCount, List.countP_cons, isMatchCol] <;> omega
      | cons b bs =>
        have hf : as.length + bs.length + 1 ≤ f := by simp at h; omega
        have hub : nwGoF sch (f + 1) p (a :: as) (b :: bs) =
            pickBest
              (pickBest (addSub sch a b (nwGoF sch f GapSt.noGap as bs))
                (addDel sch p (nwGoF sch f GapSt.inDel as (b :: bs))))
              (addIns sch p (nwGoF sch f GapSt.inIns (a :: as) bs)) := by
          simp [nwGoF]
        rcases pickBest_eq_or
            (pickBest (addSub sch a b (nwGoF sch f GapSt.noGap as bs))
              (addDel sch p (nwGoF sch f GapSt.inDel as (b :: bs))))
            (addIns sch p (nwGoF sch f GapSt.inIns (a :: as) bs)) with hout | hout
        · rcases pickBest_eq_or (addSub sch a b (nwGoF sch f GapSt.noGap as bs))
              (addDel sch p (nwGoF sch f GapSt.inDel as (b :: bs))) with hin | hin
          · obtain ⟨w, hA, hB, hEq⟩ := ih GapSt.noGap as bs (by omega)
            refine ⟨Col.sub a b :: w, by simp [consumedA, hA], by simp [consumedB, hB], ?_⟩
            rw [hub, hout, hin, hEq]
            simp only [addSub, alignScoreFrom, colCharge, stateOf, List.length_cons]
            refine Prod.ext ?_ (Prod.ext ?_ ?_) <;>
              simp [matchCount, List.countP_cons, isMatchCol] <;> omega
          · obtain ⟨w, hA, hB, hEq⟩ := ih GapSt.inDel as (b :: bs) (by simp at h ⊢; omega)
            refine ⟨Col.del a :: w, by simp [consumedA, hA], by simp [consumedB, hB], ?_⟩
            rw [hub, hout, hin, hEq]
            simp only [addDel, alignScoreFrom, colCharge, stateOf, List.length_cons]
            refine Prod.ext ?_ (Prod.ext ?_ ?_) <;>
              simp [matchCount, List.countP_cons, isMatchCol] <;> omega
        · obtain ⟨w, hA, hB, hEq⟩ := ih GapSt.inIns (a :: as) bs (by simp at h ⊢; omega)
          refine ⟨Col.ins b :: w, by simp [consumedA, hA], by simp [consumedB, hB], ?_⟩
          rw [hub, hout, hEq]
          simp only [addIns, alignScoreFrom, colCharge, stateOf, List.length_cons]
          refine Prod.ext ?_ (Prod.ext ?_ ?_) <;>
            simp [matchCount, List.countP_cons, isMatchCol] <;> omega

/-- The dynamic program's score is optimal: no global alignment of the two
sequences scores more. -/
theorem alignScore_le_nwGoF (sch : Scheme) :
    ∀ (w : List Col) (fuel : Nat) (p : GapSt) (as bs : List Char),
      as.length + bs.length ≤ fuel →
      consumedA w = as → consumedB w = bs →
      alignScoreFrom sch p w ≤ (nwGoF sch fuel p as bs).1 := by
  intro w
  induction w with
  | nil =>
    intro fuel p as bs hf hA hB
    have has : as = [] := by simpa [consumedA] using hA.symm
    have hbs : bs = [] := by simpa [consumedB] using hB.symm
    subst has; subst hbs
    cases fuel <;> simp [nwGoF, alignScoreFrom]
  | cons c w ihw =>
    intro fuel p as bs hf hA hB
    cases c with
    | sub a b =>
      simp only [consumedA] at hA
      simp only [consumedB] at hB
      subst hA; subst hB
      cases fuel with
      | zero => simp at hf
      | succ f =>
        have hrec := ihw f GapSt.noGap (consumedA w) (consumedB w)
          (by simp at hf; omega) rfl rfl
        have hpick :
            (addSub sch a b (nwGoF sch f GapSt.noGap (consumedA w) (consumedB w))).1 ≤
              (nwGoF sch (f + 1) p (a :: consumedA w) (b :: consumedB w)).1 := by
          simp only [nwGoF]
          exact le_trans (le_pickBest_left _ _) (le_pickBest_left _ _)
        simp only [addSub] at hpick
        simp only [alignScoreFrom, colCharge, stateOf]
        omega
    | del a =>
      simp only [consumedA] at hA
      simp only [consumedB] at hB
      subst hA; subst hB
      cases fuel with
      | zero => simp at hf
      | succ f =>
        have hrec := ihw f GapSt.inDel (consumedA w) (consumedB w)
          (by simp at hf ⊢; omega) rfl rfl
        have hpick :
            (addDel sch p (nwGoF sch f GapSt.inDel (consumedA w) (consumedB w))).1 ≤
              (nwGoF sch (f + 1) p (a :: consumedA w) (consumedB w)).1 := by
          cases hb : consumedB w with
          | nil => simp only [nwGoF]; omega
          | cons b bs =>
            simp only [nwGoF]
            exact le_trans (le_pickBest_right _ _) (le_pickBest_left _ _)
        simp only [addDel] at hpick
        simp only [alignScoreFrom, colCharge, stateOf]
        omega
    | ins b =>
      simp only [consumedA] at hA
      simp only [consumedB] at hB
      subst hA; subst hB
      cases fuel with
      | zero => simp at hf
      | succ f =>
        have hrec := ihw f GapSt.inIns (consumedA w) (consumedB w)
          (by simp at hf ⊢; omega) rfl rfl
        have hpick :
            (addIns sch p (nwGoF sch f GapSt.inIns (consumedA w) (consumedB w))).1 ≤
              (nwGoF sch (f + 1) p (consumedA w) (b :: consumedB w)).1 := by
          cases ha : consumedA w with
          | nil => simp only [nwGoF]; omega
          | cons a as =>
            simp only [nwGoF]
            exact le_pickBest_right _ _
        simp only [addIns] at hpick
        simp only [alignScoreFrom, colCharge, stateOf]
        omega

/-- With non-negative gap penalties, the affine score of an alignment is
at most the sum of its substitution scores. -/
theorem alignScoreFrom_le_subTotal (sch : Scheme)
    (hO : 0 ≤ sch.gapOpen) (hE : 0 ≤ sch.gapExtend) :
    ∀ (w : List Col) (p : GapSt), alignScoreFrom sch p w ≤ subTotal sch w := by
  intro w
  induction w with
  | nil => intro p; simp [alignScoreFrom, subTotal]
  | cons c w ihw =>
    intro p
    cases c with
    | sub a b =>
      have := ihw GapSt.noGap
      simp only [alignScoreFrom, colCharge, stateOf, subTotal]
      omega
    | del a =>
      have := ihw GapSt.inDel
      have hc : 0 ≤ delCharge sch p := by
        unfold delCharge; split <;> omega
      simp only [alignScoreFrom, colCharge, stateOf, subTotal]
      omega
    | ins b =>
      have := ihw GapSt.inIns
      have hc : 0 ≤ insCharge sch p := by
        unfold insCharge; split <;> omega
      simp only [alignScoreFrom, colCharge, stateOf, subTotal]
      omega

/-- With positive gap penalties, an alignment containing a gap column
scores strictly less than the sum of its substitution scores. -/
theorem alignScoreFrom_lt_subTotal (sch : Scheme)
    (hO : 0 < sch.gapOpen) (hE : 0 < sch.gapExtend) :
    ∀ (w : List Col) (p : GapSt), hasGapCol w = true →
      alignScoreFrom sch p w < subTotal sch w := by
  intro w
  induction w with
  | nil => intro p hg; simp [hasGapCol] at hg
  | cons c w ihw =>
    intro p hg
    cases c with
    | sub a b =>
      have hg' : hasGapCol w = true := by
        simpa [hasGapCol, isGapCol] using hg
      have := ihw GapSt.noGap hg'
      simp only [alignScoreFrom, colCharge, stateOf, subTotal]
      omega
    | del a =>
      have := alignScoreFrom_le_subTotal sch (le_of_lt hO) (le_of_lt hE) w GapSt.inDel
      have hc : 0 < delCharge sch p := by
        unfold delCharge; split <;> omega
      simp only [alignScoreFrom, colCharge, stateOf, subTotal]
      omega
    | ins b =>
      have := alignScoreFrom_le_subTotal sch (le_of_lt hO) (le_of_lt hE) w GapSt.inIns
      have hc : 0 < insCharge sch p := by
        unfold insCharge; split <;> omega
      simp only [alignScoreFrom, colCharge, stateOf, subTotal]
      omega

/-- If every substitution column scores at most the diagonal score of its
second symbol, the substitution total is bounded by the diagonal total. -/
theorem subTotal_le_diagTotalB (sch : Scheme) :
    ∀ w : List Col, (∀ x y, Col.sub x y ∈ w → sch.score x y ≤ sch.score y y) →
      subTotal sch w ≤ diagTotalB sch w := by
  intro w
  induction w with
  | nil => intro h; simp [subTotal, diagTotalB]
  | cons c w ihw =>
    intro h
    have hw := ihw fun x y hxy => h x y (List.mem_cons_of_mem _ hxy)
    cases c with
    | sub a b =>
      have := h a b (List.mem_cons_self _ _)
      simp only [subTotal, diagTotalB]
      omega
    | del a => simpa [subTotal, diagTotalB] using hw
    | ins b => simpa [subTotal, diagTotalB] using hw

/-- If every symbol the alignment consumes from the second sequence has a
non-negative diagonal score, the diagonal total is bounded by the second
sequence's self score. -/
theorem diagTotalB_le_selfScore (sch : Scheme) :
    ∀ w : List Col, (∀ c ∈ consumedB w, 0 ≤ sch.score c c) →
      diagTotalB sch w ≤ selfScore sch (consumedB w) := by
  intro w
  induction w with
  | nil => intro h; simp [diagTotalB, consumedB, selfScore]
  | cons c w ihw =>
    intro h
    cases c with
    | sub a b =>
      have hw := ihw fun x hx => h x (by simp [consumedB]; exact Or.inr hx)
      simp only [diagTotalB, consumedB, selfScore]
      omega
    | del a =>
      have hw := ihw fun x hx => h x (by simpa [consumedB] using hx)
      simpa [diagTotalB, consumedB] using hw
    | ins b =>
      have hw := ihw fun x hx => h x (by simp [consumedB]; exact Or.inr hx)
      have hb : 0 ≤ sch.score b b := h b (by simp [consumedB])
      simp only [diagTotalB, consumedB, selfScore]
      omega

/-- A substitution column's first symbol is among the symbols consumed
from the first sequence. -/
theorem mem_consumedA_of_sub :
    ∀ (w : List Col) (x y : Char), Col.sub x y ∈ w → x ∈ consumedA w := by
  intro w
  induction w with
  | nil => intro x y h; simp at h
  | cons c w ihw =>
    intro x y h
    rcases List.mem_cons.1 h with h1 | h1
    · subst h1; simp [consumedA]
    · have hw := ihw x y h1
      cases c <;> simp [consumedA] <;> try exact Or.inr hw
      exact hw

/-- A substitution column's second symbol is among the symbols consumed
from the second sequence. -/
theorem mem_consumedB_of_sub :
    ∀ (w : List Col) (x y : Char), Col.sub x y ∈ w → y ∈ consumedB w := by
  intro w
  induction w with
  | nil => intro x y h; simp at h
  | cons c w ihw =>
    intro x y h
    rcases List.mem_cons.1 h with h1 | h1
    · subst h1; simp [consumedB]
    · have hw := ihw x y h1
      cases c <;> simp [consumedB] <;> try exact Or.inr hw
      exact hw

/-- A gap-free alignment of a sequence with itself is the identity
alignment: its score is the self score, its length the sequence length,
and every column an exact match. -/
theorem noGap_self_structure (sch : Scheme) :
    ∀ (w : List Col) (A : List Char) (p : GapSt), hasGapCol w = false →
      consumedA w = A → consumedB w = A →
      alignScoreFrom sch p w = selfScore sch A ∧
        w.length = A.length ∧ matchCount w = A.length := by
  intro w
  induction w with
  | nil =>
    intro A p hg hA hB
    have : A = [] := by simpa [consumedA] using hA.symm
    subst this
    simp [alignScoreFrom, selfScore, matchCount]
  | cons c w ihw =>
    intro A p hg hA hB
    cases c with
    | sub a b =>
      simp only [consumedA] at hA
      simp only [consumedB] at hB
      have hg' : hasGapCol w = false := by
        simpa [hasGapCol, isGapCol] using hg
      have hab : a = b := by
        rw [← hA] at hB
        exact (List.cons.injEq _ _ _ _ ▸ hB).1.symm
      subst hab
      have htl : consumedB w = consumedA w := by
        rw [← hA] at hB
        exact (List.cons.injEq _ _ _ _ ▸ hB).2
      obtain ⟨hs, hl, hm⟩ := ihw (consumedA w) GapSt.noGap hg' rfl htl
      subst hA
      refine ⟨?_, ?_, ?_⟩
      · simp only [alignScoreFrom, colCharge, stateOf, selfScore]
        omega
      · simp [hl]
      · simp [matchCount, List.countP_cons, isMatchCol] at hm ⊢
        omega
    | del a => simp [hasGapCol, isGapCol] at hg
    | ins b => simp [hasGapCol, isGapCol] at hg

theorem consumedA_idAlign : ∀ A : List Char, consumedA (idAlign A) = A := by
  intro A
  induction A with
  | nil => simp [idAlign, consumedA]
  | cons a A ih => simp [idAlign, consumedA] at ih ⊢; exact ih

theorem consumedB_idAlign : ∀ A : List Char, consumedB (idAlign A) = A := by
  intro A
  induction A with
  | nil => simp [idAlign, consumedB]
  | cons a A ih => simp [idAlign, consumedB] at ih ⊢; exact ih

theorem alignScoreFrom_idAlign (sch : Scheme) :
    ∀ (A : List Char) (p : GapSt),
      alignScoreFrom sch p (idAlign A) = selfScore sch A := by
  intro A
  induction A with
  | nil => intro p; simp [idAlign, alignScoreFrom, selfScore]
  | cons a A ih =>
    intro p
    simp only [idAlign, List.map_cons, alignScoreFrom, colCharge, stateOf, selfScore]
    simp [idAlign] at ih
    rw [ih]

/-- The match count reported by the dynamic program never exceeds the
reported alignment length. -/
theorem nwGoF_matches_le_length (sch : Scheme) :
    ∀ (fuel : Nat) (p : GapSt) (as bs : List Char),
      (nwGoF sch fuel p as bs).2.2 ≤ (nwGoF sch fuel p as bs).2.1 := by
  intro fuel
  induction fuel with
  | zero => intro p as bs; simp [nwGoF]
  | succ f ih =>
    intro p as bs
    cases as with
    | nil =>
      cases bs with
      | nil => simp [nwGoF]
      | cons b bs =>
        have := ih GapSt.inIns [] bs
        simp only [nwGoF, addIns]
        omega
    | cons a as =>
      cases bs with
      | nil =>
        have := ih GapSt.inDel as []
        simp only [nwGoF, addDel]
        omega
      | cons b bs =>
        have h1 := ih GapSt.noGap as bs
        have h2 := ih GapSt.inDel as (b :: bs)
        have h3 := ih GapSt.inIns (a :: as) bs
        simp only [nwGoF]
        rcases pickBest_eq_or
            (pickBest (addSub sch a b (nwGoF sch f GapSt.noGap as bs))
              (addDel sch p (nwGoF sch f GapSt.inDel as (b :: bs))))
            (addIns sch p (nwGoF sch f GapSt.inIns (a :: as) bs)) with hout | hout <;>
          rw [hout]
        · rcases pickBest_eq_or (addSub sch a b (nwGoF sch f GapSt.noGap as bs))
              (addDel sch p (nwGoF sch f GapSt.inDel as (b :: bs))) with hin | hin <;>
            rw [hin]
          · simp only [addSub]
            split <;> omega
          · simp only [addDel]
            omega
        · simp only [addIns]
          omega

/-- Claim C7: self-alignment is maximal identity.  For every non-empty sequence
over symbols whose substitution scores are diagonally dominant and whose
diagonal scores are non-negative (as the 20 standard residues under
BLOSUM62 are), and positive gap penalties, the Alignment Kernel on
`(A, A)` reports aligned length `|A|` and `|A|` matches — the identity
alignment of score `selfScore A` — hence percent identity `100`. -/
theorem C7_self_alignment (sch : Scheme) (A : List Char)
    (h1 : ∀ x ∈ A, ∀ y ∈ A, sch.score x y ≤ sch.score y y)
    (h2 : ∀ c ∈ A, 0 ≤ sch.score c c)
    (h3 : 0 < sch.gapOpen) (h4 : 0 < sch.gapExtend) (h5 : A ≠ []) :
    nwGo sch GapSt.noGap A A = (selfScore sch A, A.length, A.length) ∧
      percentIdentityOfStats ⟨selfScore sch A, A.length, A.length⟩ = 100 := by
  obtain ⟨w, hA, hB, hEq⟩ :=
    nwGoF_realized sch (A.length + A.length) GapSt.noGap A A (le_refl _)
  have hsubd : ∀ x y, Col.sub x y ∈ w → sch.score x y ≤ sch.score y y := by
    intro x y hxy
    exact h1 x (hA ▸ mem_consumedA_of_sub w x y hxy) y (hB ▸ mem_consumedB_of_sub w x y hxy)
  have hub2 : subTotal sch w ≤ selfScore sch A := by
    have hd := subTotal_le_diagTotalB sch w hsubd
    have hs := diagTotalB_le_selfScore sch w (by rw [hB]; exact h2)
    rw [hB] at hs
    omega
  have hlb : selfScore sch A ≤ (nwGoF sch (A.length + A.length) GapSt.noGap A A).1 := by
    have := alignScore_le_nwGoF sch (idAlign A) (A.length + A.length) GapSt.noGap A A
      (le_refl _) (consumedA_idAlign A) (consumedB_idAlign A)
    rwa [alignScoreFrom_idAlign] at this
  have hfst : (nwGoF sch (A.length + A.length) GapSt.noGap A A).1 =
      alignScoreFrom sch GapSt.noGap w := by
    rw [hEq]
  have hnogap : hasGapCol w = false := by
    by_contra hgap
    have hgap' : hasGapCol w = true := by
      cases h : hasGapCol w
      · exact absurd h hgap
      · rfl
    have hlt := alignScoreFrom_lt_subTotal sch h3 h4 w GapSt.noGap hgap'
    omega
  obtain ⟨hs, hl, hm⟩ := noGap_self_structure sch w A GapSt.noGap hnogap hA hB
  have hgo : nwGo sch GapSt.noGap A A = (selfScore sch A, A.length, A.length) := by
    unfold nwGo
    rw [hEq, hs, hl, hm]
  refine ⟨hgo, ?_⟩
  have hn : (A.length : Rat) ≠ 0 := by
    have : A.length ≠ 0 := by
      intro h0
      exact h5 (List.length_eq_zero.1 h0)
    exact_mod_cast this
  unfold percentIdentityOfStats
  simp only [div_self hn]
  norm_num

/-!
Symmetry of the alignment score.
-/

theorem delCharge_swap (sch : Scheme) (p : GapSt) :
    delCharge sch (swapSt p) = insCharge sch p := by
  cases p <;> simp [delCharge, insCharge, swapSt]

theorem insCharge_swap (sch : Scheme) (p : GapSt) :
    insCharge sch (swapSt p) = delCharge sch p := by
  cases p <;> simp [delCharge, insCharge, swapSt]

theorem pickBest_fst (x y : Int × Nat × Nat) : (pickBest x y).1 = max x.1 y.1 := by
  unfold pickBest
  split <;> omega

/-- With a symmetric substitution matrix, the dynamic program's optimal
score is invariant under swapping the two sequences. -/
theorem nwGoF_fst_swap (sch : Scheme)
    (hsym : ∀ x y, sch.score x y = sch.score y x) :
    ∀ (fuel : Nat) (p : GapSt) (as bs : List Char),
      (nwGoF sch fuel p as bs).1 = (nwGoF sch fuel (swapSt p) bs as).1 := by
  intro fuel
  induction fuel with
  | zero => intro p as bs; simp [nwGoF]
  | succ f ih =>
    intro p as bs
    cases as with
    | nil =>
      cases bs with
      | nil => simp [nwGoF]
      | cons b bs =>
        have hi := ih GapSt.inIns [] bs
        simp only [swapSt] at hi
        have hdc := delCharge_swap sch p
        simp only [nwGoF, addIns, addDel]
        omega
    | cons a as =>
      cases bs with
      | nil =>
        have hi := ih GapSt.inDel as []
        simp only [swapSt] at hi
        have hic := insCharge_swap sch p
        simp only [nwGoF, addIns, addDel]
        omega
      | cons b bs =>
        have hS := ih GapSt.noGap as bs
        have hD := ih GapSt.inDel as (b :: bs)
        have hI := ih GapSt.inIns (a :: as) bs
        simp only [swapSt] at hS hD hI
        have hsc := hsym a b
        have hdc := delCharge_swap sch p
        have hic := insCharge_swap sch p
        simp only [nwGoF, pickBest_fst, addSub, addDel, addIns]
        omega

/-!
Lemmas about the batch orchestration.
-/

theorem filterMap_eq_map_of {α β : Type} (l : List α) (F : α → Option β) (G : α → β)
    (h : ∀ i ∈ l, F i = some (G i)) : l.filterMap F = l.map G := by
  induction l with
  | nil => rfl
  | cons a l ih =>
    rw [List.filterMap_cons, h a (List.mem_cons_self _ _), List.map_cons,
      ih fun i hi => h i (List.mem_cons_of_mem _ hi)]

theorem map_getD_range {α β : Type} (f : α → β) (d : α) :
    ∀ l : List α, (List.range l.length).map (fun i => f ((l[i]?).getD d)) = l.map f := by
  intro l
  induction l with
  | nil => simp
  | cons a l ih =>
    rw [List.length_cons, List.range_succ_eq_map, List.map_cons, List.map_map]
    simp only [List.getElem?_cons_zero, Option.getD_some, List.map_cons]
    rw [show ((fun i => f (((a :: l)[i]?).getD d)) ∘ Nat.succ) =
        fun i => f ((l[i]?).getD d) from by funext i; simp [Function.comp], ih]

/-- Every tagged result produced by the dispatch is the per-pair result of
the row at its tag. -/
theorem dispatch_mem (kernel : Kernel) (rows : List Row) (order : List Nat) :
    ∀ p ∈ dispatchResults kernel rows order,
      ∃ r, rows[p.1]? = some r ∧ p.2 = calculate_similarity_for_pair kernel r := by
  intro p hp
  obtain ⟨i, _, hi2⟩ := List.mem_filterMap.1 hp
  obtain ⟨r, hr, hpr⟩ := Option.map_eq_some'.1 hi2
  subst hpr
  exact ⟨r, hr, rfl⟩

/-- For a dispatched index, the collector finds exactly the result of the
row at that index. -/
theorem dispatch_find (kernel : Kernel) (rows : List Row) (order : List Nat)
    (i : Nat) (hi : i ∈ order) (r : Row) (hr : rows[i]? = some r) :
    (dispatchResults kernel rows order).find? (fun p => p.1 == i) =
      some (i, calculate_similarity_for_pair kernel r) := by
  have hmem : (i, calculate_similarity_for_pair kernel r) ∈
      dispatchResults kernel rows order := by
    refine List.mem_filterMap.2 ⟨i, hi, ?_⟩
    rw [hr]
    rfl
  have hsome : ((dispatchResults kernel rows order).find? (fun p => p.1 == i)).isSome := by
    rw [List.find?_isSome]
    exact ⟨_, hmem, by simp⟩
  obtain ⟨p, hp⟩ := Option.isSome_iff_exists.1 hsome
  have hpi : p.1 = i := by
    have := List.find?_some hp
    simpa using this
  obtain ⟨r2, hr2, hp2⟩ := dispatch_mem kernel rows order p (List.mem_of_find?_eq_some hp)
  rw [hpi] at hr2
  have : r2 = r := by
    rw [hr] at hr2
    exact (Option.some.inj hr2).symm
  subst this
  rw [hp]
  rw [show p = (i, calculate_similarity_for_pair kernel r2) from
    Prod.ext hpi (by rw [hp2])]

/-- Collecting by original index after any completion order that is a
permutation of the indices reproduces the sequential batch. -/
theorem runBatchSched_eq_runBatch (kernel : Kernel) (rows : List Row)
    (order : List Nat) (h : order.Perm (List.range rows.length)) :
    runBatchSched kernel rows order = runBatch kernel rows := by
  unfold runBatchSched collectInOrder runBatch
  rw [filterMap_eq_map_of (List.range rows.length) _
    (fun i => calculate_similarity_for_pair kernel ((rows[i]?).getD defaultRow))]
  · exact map_getD_range _ defaultRow rows
  · intro i hirange
    have hilt : i < rows.length := List.mem_range.1 hirange
    have hiord : i ∈ order := h.mem_iff.2 hirange
    have hr : rows[i]? = some rows[i] := List.getElem?_eq_getElem hilt
    rw [dispatch_find kernel rows order i hiord _ hr]
    simp [hr]

/-!
Lemmas about the sequence-query cache.
-/

theorem lookup_append_some {β : Type} (l1 l2 : List (String × β)) (n : String) (v : β)
    (h : l1.lookup n = some v) : (l1 ++ l2).lookup n = some v := by
  induction l1 with
  | nil => simp [List.lookup] at h
  | cons a l1 ih =>
    rw [List.cons_append]
    cases a with
    | mk k w =>
      by_cases hk : n == k
      · simp [List.lookup, hk] at h ⊢
        exact h
      · simp only [List.lookup, hk] at h ⊢
        exact ih h

theorem lookup_append_none {β : Type} (l1 l2 : List (String × β)) (n : String)
    (h : l1.lookup n = none) : (l1 ++ l2).lookup n = l2.lookup n := by
  induction l1 with
  | nil => simp
  | cons a l1 ih =>
    rw [List.cons_append]
    cases a with
    | mk k w =>
      by_cases hk : n == k
      · simp [List.lookup, hk] at h
      · simp only [List.lookup, hk] at h ⊢
        exact ih h

/-- Entries already in the cache are preserved by the fetch loop. -/
theorem buildSeqMapAux_preserves {σ : Type} (fetch : σ → String → Option String × σ) :
    ∀ (names : List String) (m : List (String × Option String)) (st : σ)
      (n : String) (v : Option String), m.lookup n = some v →
      ((buildSeqMapAux fetch names m st).1).lookup n = some v := by
  intro names
  induction names with
  | nil => intro m st n v h; simpa [buildSeqMapAux] using h
  | cons n1 ns ih =>
    intro m st n v h
    unfold buildSeqMapAux
    cases hm : m.lookup n1 with
    | some w => exact ih m st n v h
    | none => exact ih _ _ n v (lookup_append_some m _ n v h)

/-- Every name processed by the fetch loop ends up in the cache with the
value of one actual fetch of that name. -/
theorem buildSeqMapAux_covers {σ : Type} (fetch : σ → String → Option String × σ) :
    ∀ (names : List String) (m : List (String × Option String)) (st : σ)
      (n : String), n ∈ names → m.lookup n = none →
      ∃ st1, ((buildSeqMapAux fetch names m st).1).lookup n = some (fetch st1 n).1 := by
  intro names
  induction names with
  | nil => intro m st n hn; simp at hn
  | cons n1 ns ih =>
    intro m st n hn hnone
    unfold buildSeqMapAux
    cases hm : m.lookup n1 with
    | some w =>
      rcases List.mem_cons.1 hn with h1 | h1
      · subst h1
        rw [hnone] at hm
        exact absurd hm (by simp)
      · exact ih m st n h1 hnone
    | none =>
      rcases List.mem_cons.1 hn with h1 | h1
      · subst h1
        refine ⟨st, ?_⟩
        apply buildSeqMapAux_preserves
        rw [lookup_append_none m _ n hnone]
        simp [List.lookup]
      · by_cases hsame : n = n1
        · subst hsame
          refine ⟨st, ?_⟩
          apply buildSeqMapAux_preserves
          rw [lookup_append_none m _ n hnone]
          simp [List.lookup]
        · refine ih _ _ n h1 ?_
          rw [lookup_append_none m _ n hnone]
          simp [List.lookup, beq_eq_false_iff_ne.2 hsame]

/-!
Lemmas about the per-pair function.
-/

/-- The identifier slots of a per-pair result always reproduce the row's
identifiers, on both the 3-tuple and the 6-tuple return path. -/
theorem idsOf_calculate (kernel : Kernel) (r : Row) :
    idsOf (calculate_similarity_for_pair kernel r) = (r.hTF1, r.hTF2) := by
  unfold calculate_similarity_for_pair
  split_ifs <;> simp [idsOf]

/-- On a validated row whose kernel call raises, the per-pair function
returns the 6-tuple with a `nan` percent identity. -/
theorem calculate_on_error (kernel : Kernel) (r : Row)
    (h1 : isNotFound r.seq1 = false) (h2 : isNotFound r.seq2 = false)
    (h3 : isInvalidSeq r.seq1 = false) (h4 : isInvalidSeq r.seq2 = false)
    (hk : kernel (strOf r.seq1) (strOf r.seq2) = Except.error ()) :
    calculate_similarity_for_pair kernel r =
      PairResult.sextuple r.hTF1 r.hTF2 (strOf r.seq1) (strOf r.seq2) none r.similarity := by
  unfold calculate_similarity_for_pair
  rw [h1, h2, h3, h4]
  simp [hk]

/-- On a validated row whose kernel call returns a statistics object, the
per-pair function attaches the guarded percent-identity value. -/
theorem calculate_on_stats (kernel : Kernel) (r : Row) (st : Stats)
    (h1 : isNotFound r.seq1 = false) (h2 : isNotFound r.seq2 = false)
    (h3 : isInvalidSeq r.seq1 = false) (h4 : isInvalidSeq r.seq2 = false)
    (hk : kernel (strOf r.seq1) (strOf r.seq2) = Except.ok (some st)) :
    calculate_similarity_for_pair kernel r =
      PairResult.sextuple r.hTF1 r.hTF2 (strOf r.seq1) (strOf r.seq2)
        (if 0 < st.length then some (percentIdentityOfStats st) else some 0)
        r.similarity := by
  unfold calculate_similarity_for_pair
  rw [h1, h2, h3, h4]
  simp [hk]

/-- A cache entry determines the output sequence value through the
`fillna` step. -/
theorem seqOfMap_eq (m : List (String × Option String)) (n : String) (v : Option String)
    (h : m.lookup n = some v) : seqOfMap m n = v.getD "NOT_FOUND" := by
  unfold seqOfMap
  rw [h]
  cases v <;> rfl

/-!
The claims.
-/

/-- Claim C1, code-bug exhibit: for a record whose sequence A is the
`"NOT_FOUND"` sentinel, `calculate_similarity_for_pair` returns through
the early 3-tuple of line 40, which carries only the two identifiers and
the `nan` percent identity — it is not a 6-field record and in particular
does not reproduce the two sequence fields and the auxiliary similarity
value, although `main` builds every output row from six columns. -/
theorem C1_sentinel_row_drops_fields :
    calculate_similarity_for_pair (parasailKernel blosumScheme)
        ⟨"A", "B", SeqVal.str "NOT_FOUND", SeqVal.str "MKV", 1⟩ =
      PairResult.triple "A" "B" none ∧
    PairResult.triple "A" "B" none ≠
      PairResult.sextuple "A" "B" "NOT_FOUND" "MKV" none 1 := by
  exact ⟨by decide, by decide⟩

/-- Claim C2, counterexample: when the alignment result has length 0, the
script attaches the numeric value `0.0` (line 56), not `nan`; the claim
that a zero-length alignment yields not-a-number is false. -/
theorem C2_zero_length_counterexample :
    pidOf (calculate_similarity_for_pair zeroLenKernel rowMKV) = some 0 ∧
      some (0 : Rat) ≠ (none : Option Rat) := by
  exact ⟨by decide, by simp⟩

/-- Claim C2, amended: for every validated pair, the attached percent identity
is `100 × matches / length` when the reported alignment length is
positive, and the numeric value `0.0` (not `nan`) when the length is 0. -/
theorem C2_percent_identity_formula (kernel : Kernel) (r : Row) (st : Stats)
    (h1 : isNotFound r.seq1 = false) (h2 : isNotFound r.seq2 = false)
    (h3 : isInvalidSeq r.seq1 = false) (h4 : isInvalidSeq r.seq2 = false)
    (hk : kernel (strOf r.seq1) (strOf r.seq2) = Except.ok (some st)) :
    pidOf (calculate_similarity_for_pair kernel r) =
      some (if 0 < st.length then
        100 * (st.numMatches : Rat) / (st.length : Rat) else 0) := by
  rw [calculate_on_stats kernel r st h1 h2 h3 h4 hk]
  unfold pidOf percentIdentityOfStats
  split_ifs
  · rw [mul_comm, mul_div_assoc]
  · rfl

/-- Witness for the amended C2 at a concrete validated record whose
kernel result is the self-alignment of `"MKV"`. -/
theorem C2_percent_identity_formula_witness :
    pidOf (calculate_similarity_for_pair (parasailKernel blosumScheme) rowMKV) =
      some (if 0 < (3 : Nat) then 100 * ((3 : Nat) : Rat) / ((3 : Nat) : Rat) else 0) := by
  exact C2_percent_identity_formula (parasailKernel blosumScheme) rowMKV ⟨14, 3, 3⟩
    (by decide) (by decide) (by decide) (by decide) rfl

/-- Claim C5: a record whose sequences fail the sentinel or validity checks
short-circuits to a `nan` percent identity, and its result does not depend
on the kernel at all (the kernel is never invoked). -/
theorem C5_short_circuit (kernel kernel2 : Kernel) (r : Row)
    (h : (isNotFound r.seq1 || isNotFound r.seq2 ||
      isInvalidSeq r.seq1 || isInvalidSeq r.seq2) = true) :
    calculate_similarity_for_pair kernel r = PairResult.triple r.hTF1 r.hTF2 none ∧
      calculate_similarity_for_pair kernel r = calculate_similarity_for_pair kernel2 r := by
  unfold calculate_similarity_for_pair
  by_cases hnf : (isNotFound r.seq1 || isNotFound r.seq2) = true
  · simp [hnf]
  · have hinv : (isInvalidSeq r.seq1 || isInvalidSeq r.seq2) = true := by
      simp only [Bool.or_eq_true] at h hnf ⊢
      tauto
    simp [hnf, hinv]

/-- Witness for C5: an empty first sequence short-circuits identically
under the real kernel and under an always-raising kernel. -/
theorem C5_short_circuit_witness :
    calculate_similarity_for_pair (parasailKernel blosumScheme) rowEmptySeq =
        PairResult.triple "A" "B" none ∧
      calculate_similarity_for_pair (parasailKernel blosumScheme) rowEmptySeq =
        calculate_similarity_for_pair errKernel rowEmptySeq := by
  exact C5_short_circuit (parasailKernel blosumScheme) errKernel rowEmptySeq (by decide)

/-- Claim C4: a kernel failure on a validated record is contained to that
record: the batch still has one result per record, the failing record's
percent identity is `nan` (on the full 6-tuple return path), and every
other record's result is exactly its own per-pair computation. -/
theorem C4_kernel_failure_contained (kernel : Kernel) (rows : List Row)
    (i : Nat) (r : Row) (hr : rows[i]? = some r)
    (h1 : isNotFound r.seq1 = false) (h2 : isNotFound r.seq2 = false)
    (h3 : isInvalidSeq r.seq1 = false) (h4 : isInvalidSeq r.seq2 = false)
    (hk : kernel (strOf r.seq1) (strOf r.seq2) = Except.error ()) :
    (runBatch kernel rows).length = rows.length ∧
      (runBatch kernel rows)[i]? =
        some (PairResult.sextuple r.hTF1 r.hTF2 (strOf r.seq1) (strOf r.seq2)
          none r.similarity) ∧
      ∀ j, j ≠ i → (runBatch kernel rows)[j]? =
        (rows[j]?).map (calculate_similarity_for_pair kernel) := by
  refine ⟨by simp [runBatch], ?_, ?_⟩
  · unfold runBatch
    rw [List.getElem?_map, hr]
    simp only [Option.map_some']
    rw [calculate_on_error kernel r h1 h2 h3 h4 hk]
  · intro j _
    unfold runBatch
    rw [List.getElem?_map]

/-- Witness for C4: an always-raising kernel on a two-record batch leaves
both records present, the first with a `nan` percent identity and the
second still processed on its own. -/
theorem C4_kernel_failure_contained_witness :
    (runBatch errKernel rowsTwo).length = rowsTwo.length ∧
      (runBatch errKernel rowsTwo)[0]? =
        some (PairResult.sextuple "A1" "A2" "MK" "MK" none 1) ∧
      (runBatch errKernel rowsTwo)[1]? =
        (rowsTwo[1]?).map (calculate_similarity_for_pair errKernel) := by
  have h := C4_kernel_failure_contained errKernel rowsTwo 0
    ⟨"A1", "A2", SeqVal.str "MK", SeqVal.str "MK", 1⟩
    (by decide) (by decide) (by decide) (by decide) (by decide) rfl
  exact ⟨h.1, h.2.1, h.2.2 1 (by decide)⟩

/-- Witness for C7: the concrete scenario of the spec — aligning `"MKV"`
against itself under BLOSUM62 with gap-open 10 and gap-extend 1 yields
length 3, matches 3 and percent identity 100. -/
theorem C7_self_alignment_witness :
    nwGo blosumScheme GapSt.noGap ['M', 'K', 'V'] ['M', 'K', 'V'] = (14, 3, 3) ∧
      percentIdentityOfStats ⟨14, 3, 3⟩ = 100 := by
  have h := C7_self_alignment blosumScheme ['M', 'K', 'V']
    (by decide) (by decide) (by decide) (by decide) (by decide)
  refine ⟨h.1.trans (by decide), ?_⟩
  have he : (⟨selfScore blosumScheme ['M', 'K', 'V'],
      (['M', 'K', 'V'] : List Char).length, (['M', 'K', 'V'] : List Char).length⟩ : Stats) =
      ⟨14, 3, 3⟩ := by decide
  exact he ▸ h.2

/-- Claim C3: for every batch, every kernel and every completion order of the
dispatched work items, the collected output has exactly one record per
input record, and the record at each index carries the identifiers of the
input record at the same index. -/
theorem C3_order_preservation (kernel : Kernel) (rows : List Row) (order : List Nat)
    (h : order.Perm (List.range rows.length)) :
    (runBatchSched kernel rows order).length = rows.length ∧
      ∀ i, i < rows.length →
        ((runBatchSched kernel rows order)[i]?).map idsOf =
          (rows[i]?).map fun r => (r.hTF1, r.hTF2) := by
  rw [runBatchSched_eq_runBatch kernel rows order h]
  refine ⟨by simp [runBatch], ?_⟩
  intro i _
  unfold runBatch
  rw [List.getElem?_map]
  cases hr : rows[i]? with
  | none => rfl
  | some r => simp [idsOf_calculate]

/-- Witness for C3 on a concrete three-record batch completed in the
order 2, 0, 1. -/
theorem C3_order_preservation_witness :
    (runBatchSched (parasailKernel blosumScheme) rowsThree [2, 0, 1]).length = 3 ∧
      ((runBatchSched (parasailKernel blosumScheme) rowsThree [2, 0, 1])[1]?).map idsOf =
        some ("B1", "B2") := by
  have h := C3_order_preservation (parasailKernel blosumScheme) rowsThree [2, 0, 1]
    (by decide)
  exact ⟨h.1.trans (by decide), (h.2 1 (by decide)).trans (by decide)⟩

/-- Claim C6: the batch result is independent of the completion order of the
work items: any two executions whose completion orders are permutations
of the indices (in particular a sequential one-worker run and any
many-worker run) produce identical output records in the same order. -/
theorem C6_scheduling_independence (kernel : Kernel) (rows : List Row)
    (o1 o2 : List Nat) (h1 : o1.Perm (List.range rows.length))
    (h2 : o2.Perm (List.range rows.length)) :
    runBatchSched kernel rows o1 = runBatchSched kernel rows o2 := by
  rw [runBatchSched_eq_runBatch kernel rows o1 h1,
    runBatchSched_eq_runBatch kernel rows o2 h2]

/-- Witness for C6: the sequential completion order 0, 1, 2 and the
scrambled order 2, 0, 1 give the same output on a concrete batch. -/
theorem C6_scheduling_independence_witness :
    runBatchSched (parasailKernel blosumScheme) rowsThree [0, 1, 2] =
      runBatchSched (parasailKernel blosumScheme) rowsThree [2, 0, 1] := by
  exact C6_scheduling_independence (parasailKernel blosumScheme) rowsThree
    [0, 1, 2] [2, 0, 1] (by decide) (by decide)

/-- Claim C8, counterexample: under the symmetric substitution function
`cexScore` with gap-open 1 and gap-extend 1, the kernel on `("Q", "RQ")`
and on `("RQ", "Q")` reports the same optimal score `-3` but different
statistics — length 3 with 0 matches versus length 2 with 1 match — so
the derived percent identities differ (0 versus 50). -/
theorem C8_pid_asymmetry_counterexample :
    nwGo cexScheme GapSt.noGap ['Q'] ['R', 'Q'] = (-3, 3, 0) ∧
      nwGo cexScheme GapSt.noGap ['R', 'Q'] ['Q'] = (-3, 2, 1) ∧
      percentIdentityOfStats ⟨-3, 3, 0⟩ ≠ percentIdentityOfStats ⟨-3, 2, 1⟩ := by
  exact ⟨by decide, by decide, by norm_num [percentIdentityOfStats]⟩

/-- Claim C8, amended: with a symmetric substitution matrix, the Alignment
Kernel's optimal score is symmetric in its two sequences; the percent
identity need not be, because the tie-break may select optimal alignments
with different match statistics in the two directions. -/
theorem C8_score_symmetry (sch : Scheme)
    (hsym : ∀ x y, sch.score x y = sch.score y x) (s1 s2 : String) :
    (nw_stats sch s1 s2).score = (nw_stats sch s2 s1).score := by
  unfold nw_stats nwGo
  have h := nwGoF_fst_swap sch hsym (s1.toList.length + s2.toList.length)
    GapSt.noGap s1.toList s2.toList
  simp only [swapSt] at h
  rw [Nat.add_comm s2.toList.length s1.toList.length]
  exact h

/-- Witness for C8's amended statement under a manifestly symmetric
scheme. -/
theorem C8_score_symmetry_witness :
    (nw_stats diagScheme "AB" "B").score = (nw_stats diagScheme "B" "AB").score := by
  refine C8_score_symmetry diagScheme ?_ "AB" "B"
  intro x y
  show (if x = y then (1 : Int) else 0) = (if y = x then 1 else 0)
  by_cases h : x = y
  · subst h; rfl
  · rw [if_neg h, if_neg fun he => h he.symm]

/-- Claim C9: under the script's actual kernel and scheme, every defined percent
identity attached to an output record lies in the closed interval
`[0, 100]` (a consequence of `0 ≤ matches ≤ length` for every alignment
result). -/
theorem C9_percent_identity_range (r : Row) (q : Rat)
    (h : pidOf (calculate_similarity_for_pair (parasailKernel blosumScheme) r) = some q) :
    0 ≤ q ∧ q ≤ 100 := by
  unfold calculate_similarity_for_pair at h
  by_cases hnf : (isNotFound r.seq1 || isNotFound r.seq2) = true
  · simp [hnf, pidOf] at h
  · by_cases hinv : (isInvalidSeq r.seq1 || isInvalidSeq r.seq2) = true
    · simp [hnf, hinv, pidOf] at h
    · simp only [hnf, hinv, if_false, Bool.not_eq_true] at h
      rw [if_neg (by simp [hnf]), if_neg (by simp [hinv])] at h
      simp only [parasailKernel, pidOf] at h
      set st := nw_stats blosumScheme (strOf r.seq1) (strOf r.seq2) with hst
      by_cases hl : 0 < st.length
      · rw [if_pos hl] at h
        have hq : q = percentIdentityOfStats st := (Option.some.inj h).symm
        have hml : st.numMatches ≤ st.length := by
          rw [hst]
          unfold nw_stats
          exact nwGoF_matches_le_length blosumScheme _ GapSt.noGap _ _
        have hl0 : (0 : Rat) < (st.length : Rat) := by exact_mod_cast hl
        have hmlq : (st.numMatches : Rat) ≤ (st.length : Rat) := by exact_mod_cast hml
        have hdiv : (st.numMatches : Rat) / (st.length : Rat) ≤ 1 :=
          (div_le_one hl0).2 hmlq
        have hdiv0 : 0 ≤ (st.numMatches : Rat) / (st.length : Rat) :=
          div_nonneg (by positivity) (le_of_lt hl0)
        rw [hq]
        unfold percentIdentityOfStats
        constructor
        · positivity
        · nlinarith
      · rw [if_neg hl] at h
        have hq : q = 0 := (Option.some.inj h).symm
        rw [hq]
        norm_num

/-- Witness for C9: the self-pair record's percent identity is 100, which
lies in `[0, 100]`. -/
theorem C9_percent_identity_range_witness :
    pidOf (calculate_similarity_for_pair (parasailKernel blosumScheme) rowMKV) =
        some 100 ∧ (0 : Rat) ≤ 100 ∧ (100 : Rat) ≤ 100 := by
  have h1 : pidOf (calculate_similarity_for_pair (parasailKernel blosumScheme) rowMKV) =
      some (percentIdentityOfStats ⟨14, 3, 3⟩) := rfl
  have h2 : percentIdentityOfStats ⟨14, 3, 3⟩ = 100 := by
    norm_num [percentIdentityOfStats]
  have h3 : pidOf (calculate_similarity_for_pair (parasailKernel blosumScheme) rowMKV) =
      some 100 := by rw [h1, h2]
  exact ⟨h3, C9_percent_identity_range rowMKV 100 h3⟩

/-- Claim C10: the sequence-query stage builds one name-to-sequence table over
the unique names before the per-row mapping, so (a) output rows mentioning
the same name always carry identical sequence values in either column,
(b) each output sequence value is the result of the single fetch performed
for that name, with a fetch miss appearing as the exact sentinel
`"NOT_FOUND"`, and (c) the sentinel is distinct from the empty string. -/
theorem C10_sequence_cache_consistency {σ : Type}
    (fetch : σ → String → Option String × σ) (st : σ)
    (rows : List NamePairRow) (names : List String)
    (hcov : ∀ r ∈ rows, r.hTF1 ∈ names ∧ r.hTF2 ∈ names) :
    (∀ r ∈ sequenceQueryMain fetch st rows names,
       ∀ r2 ∈ sequenceQueryMain fetch st rows names,
         (r.hTF1 = r2.hTF1 → r.seq1 = r2.seq1) ∧
         (r.hTF1 = r2.hTF2 → r.seq1 = r2.seq2) ∧
         (r.hTF2 = r2.hTF2 → r.seq2 = r2.seq2)) ∧
      (∀ r ∈ sequenceQueryMain fetch st rows names,
         (∃ st1, r.seq1 = ((fetch st1 r.hTF1).1).getD "NOT_FOUND") ∧
         (∃ st2, r.seq2 = ((fetch st2 r.hTF2).1).getD "NOT_FOUND")) ∧
      ("NOT_FOUND" : String) ≠ "" := by
  have hout : ∀ r ∈ sequenceQueryMain fetch st rows names,
      r.seq1 = seqOfMap (buildSeqMap fetch names st).1 r.hTF1 ∧
      r.seq2 = seqOfMap (buildSeqMap fetch names st).1 r.hTF2 ∧
      r.hTF1 ∈ names ∧ r.hTF2 ∈ names := by
    intro r hr
    obtain ⟨r0, hr0, hmap⟩ := List.mem_map.1 hr
    subst hmap
    exact ⟨rfl, rfl, (hcov r0 hr0).1, (hcov r0 hr0).2⟩
  refine ⟨?_, ?_, by decide⟩
  · intro r hr r2 hr2
    obtain ⟨hs1, hs2, _, _⟩ := hout r hr
    obtain ⟨ht1, ht2, _, _⟩ := hout r2 hr2
    refine ⟨?_, ?_, ?_⟩
    · intro he; rw [hs1, ht1, he]
    · intro he; rw [hs1, ht2, he]
    · intro he; rw [hs2, ht2, he]
  · intro r hr
    obtain ⟨hs1, hs2, hn1, hn2⟩ := hout r hr
    constructor
    · obtain ⟨st1, hl⟩ := buildSeqMapAux_covers fetch names [] st r.hTF1 hn1 rfl
      refine ⟨st1, ?_⟩
      rw [hs1]
      unfold buildSeqMap
      exact seqOfMap_eq _ _ _ hl
    · obtain ⟨st2, hl⟩ := buildSeqMapAux_covers fetch names [] st r.hTF2 hn2 rfl
      refine ⟨st2, ?_⟩
      rw [hs2]
      unfold buildSeqMap
      exact seqOfMap_eq _ _ _ hl

/-- Witness for C10 on a concrete batch: the name `"TP53"` receives its
fetched sequence and the fetch-miss name `"GONE"` receives the sentinel. -/
theorem C10_sequence_cache_consistency_witness :
    sequenceQueryMain fetchW 0 rowsW namesW =
        [⟨"TP53", "SEQTP53", "GONE", "NOT_FOUND", 1⟩] ∧
      ("NOT_FOUND" : String) ≠ "" := by
  have h := C10_sequence_cache_consistency fetchW 0 rowsW namesW (by decide)
  exact ⟨by decide, h.2.2⟩

end HTF
